import Mathlib

/-!
Verification of the resumable exhaustive-search engine implemented by the
class `USDTBalanceSeedPhraseRecovery` in `src/diagnose.js`.

The JavaScript source is shallowly embedded: BigInt arithmetic on nonnegative
values is modelled by `Nat` (BigInt division truncates, which is floor
division for nonnegative operands), thrown exceptions by `Except String`,
the external oracle (wallet derivation plus the USDT `balanceOf` call) by an
injected fallible function, and the text ledger file by a list of typed
lines at the granularity at which the code reads it back.
-/

/-- JavaScript `array.splice(n, 0, a)` restricted to a nonnegative start
value: insert `a` at 0-based position `n`, clamping `n` to the array length
(for `n` at least the length, `splice` appends at the end).  Used by
`generateCombination` (src/diagnose.js line 210) with `n = pos - 1`; the
missing positions are 1-based, so `pos - 1` is nonnegative there. -/
def spliceInsert {α : Type} : Nat → α → List α → List α
  | 0, a, l => a :: l
  | _ + 1, a, [] => [a]
  | n + 1, a, x :: l => x :: spliceInsert n a l

/-- Length of a splice insertion: exactly one element is added. -/
theorem spliceInsert_length {α : Type} (a : α) (n : Nat) (l : List α) :
    (spliceInsert n a l).length = l.length + 1 := by
  induction n generalizing l with
  | zero => simp [spliceInsert]
  | succ n ih =>
    cases l with
    | nil => simp [spliceInsert]
    | cons x xs => simp [spliceInsert, ih]

/-- Reading a spliced list strictly below the insertion point leaves the
original entries in place. -/
theorem spliceInsert_getD_lt {α : Type} (d a : α) (n k : Nat) (l : List α)
    (hn : n ≤ l.length) (hk : k < n) :
    (spliceInsert n a l).getD k d = l.getD k d := by
  induction n generalizing l k with
  | zero => omega
  | succ n ih =>
    cases l with
    | nil => simp at hn
    | cons x xs =>
      cases k with
      | zero => rfl
      | succ k =>
        simpa [spliceInsert] using ih k xs (by simpa using hn) (by omega)

/-- Reading a spliced list at the insertion point returns the inserted
element. -/
theorem spliceInsert_getD_self {α : Type} (d a : α) (n : Nat) (l : List α)
    (hn : n ≤ l.length) : (spliceInsert n a l).getD n d = a := by
  induction n generalizing l with
  | zero => rfl
  | succ n ih =>
    cases l with
    | nil => simp at hn
    | cons x xs => simpa [spliceInsert] using ih xs (by simpa using hn)

/-- Reading a spliced list strictly above the insertion point sees the
original entries shifted up by one. -/
theorem spliceInsert_getD_gt {α : Type} (d a : α) (n k : Nat) (l : List α)
    (hn : n ≤ l.length) (hk : n < k) :
    (spliceInsert n a l).getD k d = l.getD (k - 1) d := by
  induction n generalizing l k with
  | zero =>
    cases k with
    | zero => omega
    | succ k => simp [spliceInsert]
  | succ n ih =>
    cases l with
    | nil => simp at hn
    | cons x xs =>
      cases k with
      | zero => omega
      | succ k =>
        cases k with
        | zero => omega
        | succ m =>
          simpa [spliceInsert] using ih (m + 1) xs (by simpa using hn) (by omega)

/-- Every element of a spliced list is either the inserted element or an
element of the original list. -/
theorem mem_spliceInsert {α : Type} (a x : α) (n : Nat) (l : List α)
    (hx : x ∈ spliceInsert n a l) : x = a ∨ x ∈ l := by
  induction n generalizing l with
  | zero => simpa [spliceInsert] using hx
  | succ n ih =>
    cases l with
    | nil => simpa [spliceInsert] using hx
    | cons y ys =>
      rcases (by simpa [spliceInsert] using hx : x = y ∨ x ∈ spliceInsert n a ys) with h | h
      · right; simp [h]
      · rcases ih ys h with h2 | h2
        · left; exact h2
        · right; simp [h2]

/-- Word-list index produced for the free slot numbered `i` (0-based, most
significant first) in `generateCombination` (src/diagnose.js lines 205-209):
`Number((combinationIndex / (wordListLength ** BigInt(m - 1 - index))) % wordListLength)`
with `m` the total number of missing positions.  BigInt division of
nonnegative values is floor division, hence `Nat` division. -/
def freeSlotWordIndex (wordListLength m combinationIndex i : Nat) : Nat :=
  combinationIndex / wordListLength ^ (m - 1 - i) % wordListLength

/-- The `missingPositions.forEach` loop of `generateCombination`
(src/diagnose.js lines 204-211): for each missing position `pos` (with its
running counter `i`), splice `wordList[freeSlotWordIndex]` into the
accumulating candidate at `pos - 1`.  The in-range word-list access
`this.wordList[wordIndex]` is modelled by `getD` with a default that is
never used for a nonempty word list. -/
def generateCombinationAux (wordList : List String) (combinationIndex m : Nat) :
    List Nat → Nat → List String → List String
  | [], _, acc => acc
  | pos :: rest, i, acc =>
    generateCombinationAux wordList combinationIndex m rest (i + 1)
      (spliceInsert (pos - 1)
        (wordList.getD (freeSlotWordIndex wordList.length m combinationIndex i) "")
        acc)

/-- Model of `USDTBalanceSeedPhraseRecovery.generateCombination`
(src/diagnose.js lines 202-213): start from a copy of `knownWords` and
splice one decoded word into the candidate for each missing position. -/
def generateCombination (wordList knownWords : List String)
    (missingPositions : List Nat) (combinationIndex : Nat) : List String :=
  generateCombinationAux wordList combinationIndex missingPositions.length
    missingPositions 0 knownWords

/-- A strictly increasing list of naturals whose elements lie in the
half-open interval above `lo` and at most `hi` has at most `hi - lo`
elements. -/
theorem pairwise_lt_length_le (l : List Nat) (lo hi : Nat)
    (hs : l.Pairwise (· < ·)) (hb : ∀ x ∈ l, lo < x ∧ x ≤ hi) :
    l.length ≤ hi - lo := by
  induction l generalizing lo with
  | nil => simp
  | cons x xs ih =>
    have hx := hb x (by simp)
    have hcons := List.pairwise_cons.mp hs
    have hxs : ∀ y ∈ xs, x < y ∧ y ≤ hi := fun y hy =>
      ⟨hcons.1 y hy, (hb y (by simp [hy])).2⟩
    have := ih x hcons.2 hxs
    simp only [List.length_cons]
    omega

/-- Template invariant (spec section 3: distinct 1-based positions, each at
most the candidate length) implies the stepwise bound needed by the splice
loop: the j-th missing position fits within the accumulated candidate after
j insertions. -/
theorem template_position_bound (ps : List Nat) (kLen : Nat)
    (hs : ps.Pairwise (· < ·)) (hhi : ∀ p ∈ ps, p ≤ kLen + ps.length) :
    ∀ j (hj : j < ps.length), ps.get ⟨j, hj⟩ ≤ kLen + j + 1 := by
  intro j hj
  have hget := List.pairwise_iff_get.mp hs
  have htail : (ps.drop (j + 1)).Pairwise (· < ·) :=
    List.Pairwise.sublist (List.drop_sublist _ _) hs
  have hbound : ∀ y ∈ ps.drop (j + 1), ps.get ⟨j, hj⟩ < y ∧ y ≤ kLen + ps.length := by
    intro y hy
    obtain ⟨⟨m, hm⟩, hmy⟩ := List.mem_iff_get.mp hy
    have hlen : j + 1 + m < ps.length := by
      have := List.length_drop (j + 1) ps
      omega
    have hyget : y = ps.get ⟨j + 1 + m, hlen⟩ := by
      rw [← hmy, List.get_drop]
    constructor
    · rw [hyget]
      exact hget ⟨j, hj⟩ ⟨j + 1 + m, hlen⟩ (by simp; omega)
    · exact hhi y (List.mem_of_mem_drop hy)
  have hcount := pairwise_lt_length_le (ps.drop (j + 1)) (ps.get ⟨j, hj⟩)
    (kLen + ps.length) htail hbound
  have hdlen : (ps.drop (j + 1)).length = ps.length - (j + 1) := List.length_drop _ _
  have hself : ps.get ⟨j, hj⟩ ≤ kLen + ps.length := hhi _ (ps.get_mem _ _)
  omega

/-- Fixed-slot characterization of the splice loop: at a 0-based position
`k` that is not one of the (1-based) missing positions, the accumulated
candidate still shows the original entry, shifted down by the number of
missing positions at or below `k`. -/
theorem generateCombinationAux_getD_fixed (wordList : List String)
    (combinationIndex m : Nat) :
    ∀ (ps : List Nat) (i : Nat) (acc : List String) (k : Nat),
      ps.Pairwise (· < ·) →
      (∀ p ∈ ps, 1 ≤ p) →
      (∀ j (hj : j < ps.length), ps.get ⟨j, hj⟩ ≤ acc.length + j + 1) →
      (k + 1) ∉ ps →
      (generateCombinationAux wordList combinationIndex m ps i acc).getD k "" =
        acc.getD (k - ps.countP (fun p => decide (p ≤ k))) "" := by
  intro ps
  induction ps with
  | nil =>
    intro i acc k _ _ _ _
    simp [generateCombinationAux]
  | cons p rest ih =>
    intro i acc k hs h1 hr hk
    have hcons := List.pairwise_cons.mp hs
    have hp1 : 1 ≤ p := h1 p (by simp)
    have hpacc : p - 1 ≤ acc.length := by
      have := hr 0 (by simp)
      simp at this
      omega
    have hlen1 := spliceInsert_length
      (wordList.getD (freeSlotWordIndex wordList.length m combinationIndex i) "") (p - 1) acc
    have hrrest : ∀ j (hj : j < rest.length),
        rest.get ⟨j, hj⟩ ≤
          (spliceInsert (p - 1)
            (wordList.getD (freeSlotWordIndex wordList.length m combinationIndex i) "")
            acc).length + j + 1 := by
      intro j hj
      have h2 := hr (j + 1) (by simp; omega)
      simp only [List.get_eq_getElem, List.getElem_cons_succ] at h2 ⊢
      rw [hlen1]
      omega
    have hkrest : (k + 1) ∉ rest := fun hmem => hk (by simp [hmem])
    have hih := ih (i + 1)
      (spliceInsert (p - 1)
        (wordList.getD (freeSlotWordIndex wordList.length m combinationIndex i) "")
        acc) k hcons.2 (fun q hq => h1 q (by simp [hq])) hrrest hkrest
    rw [show generateCombinationAux wordList combinationIndex m (p :: rest) i acc =
        generateCombinationAux wordList combinationIndex m rest (i + 1)
          (spliceInsert (p - 1)
            (wordList.getD (freeSlotWordIndex wordList.length m combinationIndex i) "")
            acc) from rfl]
    rw [hih]
    have hpk1 : p ≠ k + 1 := fun h => hk (by simp [h])
    rcases Nat.lt_or_ge k p with hkp | hkp
    · -- k is strictly below the insertion position p - 1
      have hrest0 : rest.countP (fun q => decide (q ≤ k)) = 0 := by
        rw [List.countP_eq_zero]
        intro q hq
        have hq2 := hcons.1 q hq
        simp only [decide_eq_true_eq]
        omega
      have hpk : ¬p ≤ k := by omega
      have hcnt : (p :: rest).countP (fun q => decide (q ≤ k)) = 0 := by
        rw [List.countP_cons, hrest0]
        simp [hpk]
      rw [hrest0, hcnt]
      rw [spliceInsert_getD_lt _ _ _ _ _ hpacc (by omega)]
    · -- p ≤ k: the entry sits above the insertion point
      have hcnt_le : rest.countP (fun q => decide (q ≤ k)) ≤ k - p := by
        rw [List.countP_eq_length_filter]
        apply pairwise_lt_length_le _ p k
        · exact List.Pairwise.filter _ hcons.2
        · intro y hy
          have hmem := List.mem_of_mem_filter hy
          have hprop := List.of_mem_filter hy
          simp at hprop
          exact ⟨hcons.1 y hmem, hprop⟩
      have hpk : p ≤ k := by omega
      have hcnt : (p :: rest).countP (fun q => decide (q ≤ k)) =
          rest.countP (fun q => decide (q ≤ k)) + 1 := by
        rw [List.countP_cons]
        simp [hpk]
      rw [hcnt]
      rw [spliceInsert_getD_gt _ _ _ _ _ hpacc (by omega)]
      have harith : k - List.countP (fun q => decide (q ≤ k)) rest - 1 =
          k - (List.countP (fun q => decide (q ≤ k)) rest + 1) := by omega
      rw [harith]

/-- Length of the generated candidate: one word per missing position is
added to the accumulator. -/
theorem generateCombinationAux_length (wordList : List String)
    (combinationIndex m : Nat) :
    ∀ (ps : List Nat) (i : Nat) (acc : List String),
      (generateCombinationAux wordList combinationIndex m ps i acc).length =
        acc.length + ps.length := by
  intro ps
  induction ps with
  | nil => intro i acc; simp [generateCombinationAux]
  | cons p rest ih =>
    intro i acc
    rw [show generateCombinationAux wordList combinationIndex m (p :: rest) i acc =
        generateCombinationAux wordList combinationIndex m rest (i + 1)
          (spliceInsert (p - 1)
            (wordList.getD (freeSlotWordIndex wordList.length m combinationIndex i) "")
            acc) from rfl]
    rw [ih, spliceInsert_length]
    simp
    omega

/-- Free-slot characterization of the splice loop: the candidate shows, at
the j-th missing position (1-based position, hence 0-based index
`ps.get j - 1`), exactly the word selected by the mixed-radix digit numbered
`i + j`, where `i` is the digit counter at loop entry. -/
theorem generateCombinationAux_getD_free (wordList : List String)
    (combinationIndex m : Nat) :
    ∀ (ps : List Nat) (i : Nat) (acc : List String) (j : Nat) (hj : j < ps.length),
      ps.Pairwise (· < ·) →
      (∀ p ∈ ps, 1 ≤ p) →
      (∀ t (ht : t < ps.length), ps.get ⟨t, ht⟩ ≤ acc.length + t + 1) →
      (generateCombinationAux wordList combinationIndex m ps i acc).getD
          (ps.get ⟨j, hj⟩ - 1) "" =
        wordList.getD (freeSlotWordIndex wordList.length m combinationIndex (i + j)) "" := by
  intro ps
  induction ps with
  | nil => intro i acc j hj; simp at hj
  | cons p rest ih =>
    intro i acc j hj hs h1 hr
    have hcons := List.pairwise_cons.mp hs
    have hp1 : 1 ≤ p := h1 p (by simp)
    have hpacc : p - 1 ≤ acc.length := by
      have := hr 0 (by simp)
      simp at this
      omega
    have hlen1 := spliceInsert_length
      (wordList.getD (freeSlotWordIndex wordList.length m combinationIndex i) "") (p - 1) acc
    have hrrest : ∀ t (ht : t < rest.length),
        rest.get ⟨t, ht⟩ ≤
          (spliceInsert (p - 1)
            (wordList.getD (freeSlotWordIndex wordList.length m combinationIndex i) "")
            acc).length + t + 1 := by
      intro t ht
      have h2 := hr (t + 1) (by simp; omega)
      simp only [List.get_eq_getElem, List.getElem_cons_succ] at h2 ⊢
      rw [hlen1]
      omega
    rw [show generateCombinationAux wordList combinationIndex m (p :: rest) i acc =
        generateCombinationAux wordList combinationIndex m rest (i + 1)
          (spliceInsert (p - 1)
            (wordList.getD (freeSlotWordIndex wordList.length m combinationIndex i) "")
            acc) from rfl]
    cases j with
    | zero =>
      -- position p itself: the word spliced in this step stays at p - 1
      have hnotin : (p - 1) + 1 ∉ rest := by
        intro hmem
        have := hcons.1 _ hmem
        omega
      have hfix := generateCombinationAux_getD_fixed wordList combinationIndex m rest (i + 1)
        (spliceInsert (p - 1)
          (wordList.getD (freeSlotWordIndex wordList.length m combinationIndex i) "")
          acc) (p - 1) hcons.2 (fun q hq => h1 q (by simp [hq])) hrrest hnotin
      have hcnt0 : rest.countP (fun q => decide (q ≤ p - 1)) = 0 := by
        rw [List.countP_eq_zero]
        intro q hq
        have := hcons.1 q hq
        simp only [decide_eq_true_eq]
        omega
      simp only [List.get_eq_getElem, List.getElem_cons_zero]
      rw [hfix, hcnt0]
      rw [show p - 1 - 0 = p - 1 from rfl]
      rw [spliceInsert_getD_self _ _ _ _ hpacc]
      simp
    | succ j =>
      have hjr : j < rest.length := by
        simp at hj
        omega
      have hrec := ih (i + 1)
        (spliceInsert (p - 1)
          (wordList.getD (freeSlotWordIndex wordList.length m combinationIndex i) "")
          acc) j hjr hcons.2 (fun q hq => h1 q (by simp [hq])) hrrest
      simp only [List.get_eq_getElem, List.getElem_cons_succ]
      simp only [List.get_eq_getElem] at hrec
      rw [hrec]
      have : i + 1 + j = i + (j + 1) := by omega
      rw [this]

/-- Two numbers below `v ^ m` that agree on every base-`v` digit are
equal. -/
theorem eq_of_digits_eq (v : Nat) :
    ∀ (m a b : Nat), a < v ^ m → b < v ^ m →
      (∀ e, e < m → a / v ^ e % v = b / v ^ e % v) → a = b := by
  intro m
  induction m with
  | zero =>
    intro a b ha hb _
    simp [pow_zero] at ha hb
    omega
  | succ m ih =>
    intro a b ha hb h
    rcases Nat.eq_zero_or_pos v with hv | hv
    · subst hv
      simp [pow_succ] at ha
    · have h0 := h 0 (by omega)
      simp only [pow_zero, Nat.div_one] at h0
      have hdiva : a / v < v ^ m := by
        rw [Nat.div_lt_iff_lt_mul hv]
        rw [pow_succ] at ha
        exact ha
      have hdivb : b / v < v ^ m := by
        rw [Nat.div_lt_iff_lt_mul hv]
        rw [pow_succ] at hb
        exact hb
      have hdigits : ∀ e, e < m → a / v / v ^ e % v = b / v / v ^ e % v := by
        intro e he
        have hstep : ∀ c : Nat, c / v / v ^ e = c / v ^ (e + 1) := by
          intro c
          rw [Nat.div_div_eq_div_mul]
          congr 1
          rw [pow_succ]
          ring
        rw [hstep a, hstep b]
        exact h (e + 1) (by omega)
      have hdiv := ih (a / v) (b / v) hdiva hdivb hdigits
      have ha2 := Nat.div_add_mod a v
      have hb2 := Nat.div_add_mod b v
      rw [hdiv] at ha2
      omega

/-- Two distinct numbers below `v ^ m` differ in at least one digit of the
most-significant-first decomposition used by `generateCombination`. -/
theorem exists_digit_ne (v m a b : Nat) (ha : a < v ^ m) (hb : b < v ^ m)
    (hne : a ≠ b) :
    ∃ t, t < m ∧ a / v ^ (m - 1 - t) % v ≠ b / v ^ (m - 1 - t) % v := by
  by_contra hcon
  push_neg at hcon
  apply hne
  apply eq_of_digits_eq v m a b ha hb
  intro e he
  have h := hcon (m - 1 - e) (by omega)
  have hrw : m - 1 - (m - 1 - e) = e := by omega
  rwa [hrw] at h

/-- C1: for every vocabulary without duplicate tokens, every template
(strictly increasing 1-based missing positions within the candidate
length), and every index in `[0, V^M)`, `generateCombination` produces the
mixed-radix decoding: the candidate has length `L = knownWords.length + M`,
the j-th free slot (0-indexed, most significant first) holds
`Vocabulary[index / V^(M-1-j) mod V]`, and every other slot shows the known
words verbatim, in order; in particular the spec's example scenario with
`Vocabulary = [a, b, c]` and `Template = [Fixed x, Free, Fixed y, Free]`
decodes indices 0, 4 and 8 to `[x,a,y,a]`, `[x,b,y,b]` and `[x,c,y,c]`. -/
theorem C1_generateCombination_mixed_radix
    (wordList knownWords : List String) (missingPositions : List Nat)
    (combinationIndex : Nat)
    (_hnd : wordList.Nodup)
    (hs : missingPositions.Pairwise (· < ·))
    (h1 : ∀ p ∈ missingPositions, 1 ≤ p)
    (hL : ∀ p ∈ missingPositions, p ≤ knownWords.length + missingPositions.length)
    (_hidx : combinationIndex < wordList.length ^ missingPositions.length) :
    ((generateCombination wordList knownWords missingPositions combinationIndex).length =
        knownWords.length + missingPositions.length ∧
      (∀ j (hj : j < missingPositions.length),
        (generateCombination wordList knownWords missingPositions combinationIndex).getD
            (missingPositions.get ⟨j, hj⟩ - 1) "" =
          wordList.getD
            (combinationIndex /
                wordList.length ^ (missingPositions.length - 1 - j) %
              wordList.length) "") ∧
      (∀ k, (k + 1) ∉ missingPositions →
        (generateCombination wordList knownWords missingPositions combinationIndex).getD
            k "" =
          knownWords.getD
            (k - missingPositions.countP (fun p => decide (p ≤ k))) "")) ∧
    (generateCombination ["a", "b", "c"] ["x", "y"] [2, 4] 0 = ["x", "a", "y", "a"] ∧
      generateCombination ["a", "b", "c"] ["x", "y"] [2, 4] 4 = ["x", "b", "y", "b"] ∧
      generateCombination ["a", "b", "c"] ["x", "y"] [2, 4] 8 = ["x", "c", "y", "c"]) := by
  have hbound := template_position_bound missingPositions knownWords.length hs hL
  refine ⟨⟨?_, ?_, ?_⟩, by decide, by decide, by decide⟩
  · exact generateCombinationAux_length wordList combinationIndex
      missingPositions.length missingPositions 0 knownWords
  · intro j hj
    have h := generateCombinationAux_getD_free wordList combinationIndex
      missingPositions.length missingPositions 0 knownWords j hj hs h1 hbound
    simpa [freeSlotWordIndex] using h
  · intro k hk
    exact generateCombinationAux_getD_fixed wordList combinationIndex
      missingPositions.length missingPositions 0 knownWords k hs h1 hbound hk

/-- Witness for C1 at the spec's example scenario: the hypotheses hold for
`Vocabulary = [a,b,c]`, `Template = [Fixed x, Free, Fixed y, Free]`,
index 4, and the theorem then gives slot 1 the word `b`. -/
theorem C1_generateCombination_mixed_radix_witness :
    (generateCombination ["a", "b", "c"] ["x", "y"] [2, 4] 4).length = 2 + 2 ∧
    (generateCombination ["a", "b", "c"] ["x", "y"] [2, 4] 4).getD 1 "" =
      (["a", "b", "c"] : List String).getD (4 / 3 ^ 1 % 3) "" := by
  have h := C1_generateCombination_mixed_radix ["a", "b", "c"] ["x", "y"] [2, 4] 4
    (by decide) (by decide) (by decide) (by decide) (by decide)
  exact ⟨h.1.1, h.1.2.1 0 (by decide)⟩

/-- C2: for every vocabulary without duplicate tokens and every template,
the encoder is injective on its domain: distinct indices below `V^M`
produce distinct candidates. -/
theorem C2_generateCombination_injective
    (wordList knownWords : List String) (missingPositions : List Nat)
    (i j : Nat)
    (hnd : wordList.Nodup)
    (hs : missingPositions.Pairwise (· < ·))
    (h1 : ∀ p ∈ missingPositions, 1 ≤ p)
    (hL : ∀ p ∈ missingPositions, p ≤ knownWords.length + missingPositions.length)
    (hi : i < wordList.length ^ missingPositions.length)
    (hj : j < wordList.length ^ missingPositions.length)
    (hne : i ≠ j) :
    generateCombination wordList knownWords missingPositions i ≠
      generateCombination wordList knownWords missingPositions j := by
  intro heq
  obtain ⟨t, htM, hdne⟩ :=
    exists_digit_ne wordList.length missingPositions.length i j hi hj hne
  have hV : 0 < wordList.length := by
    rcases Nat.eq_zero_or_pos wordList.length with h0 | h0
    · exfalso
      rw [h0, zero_pow (by omega : missingPositions.length ≠ 0)] at hi
      omega
    · exact h0
  have hbound := template_position_bound missingPositions knownWords.length hs hL
  have hfi := generateCombinationAux_getD_free wordList i missingPositions.length
    missingPositions 0 knownWords t htM hs h1 hbound
  have hfj := generateCombinationAux_getD_free wordList j missingPositions.length
    missingPositions 0 knownWords t htM hs h1 hbound
  rw [show generateCombinationAux wordList i missingPositions.length missingPositions
      0 knownWords = generateCombination wordList knownWords missingPositions i
      from rfl] at hfi
  rw [show generateCombinationAux wordList j missingPositions.length missingPositions
      0 knownWords = generateCombination wordList knownWords missingPositions j
      from rfl] at hfj
  rw [heq, hfj] at hfi
  have hdi : freeSlotWordIndex wordList.length missingPositions.length i (0 + t) <
      wordList.length := Nat.mod_lt _ hV
  have hdj : freeSlotWordIndex wordList.length missingPositions.length j (0 + t) <
      wordList.length := Nat.mod_lt _ hV
  rw [List.getD_eq_get _ _ hdj, List.getD_eq_get _ _ hdi] at hfi
  have := (List.Nodup.get_inj_iff hnd).mp hfi.symm
  apply hdne
  have h2 := congrArg Fin.val this
  simpa [freeSlotWordIndex] using h2

/-- Witness for C2: with the example vocabulary and template, indices 0 and
4 yield different candidates. -/
theorem C2_generateCombination_injective_witness :
    generateCombination ["a", "b", "c"] ["x", "y"] [2, 4] 0 ≠
      generateCombination ["a", "b", "c"] ["x", "y"] [2, 4] 4 :=
  C2_generateCombination_injective ["a", "b", "c"] ["x", "y"] [2, 4] 0 4
    (by decide) (by decide) (by decide) (by decide) (by decide) (by decide) (by decide)

/-- Model of `USDTBalanceSeedPhraseRecovery.isValidBIP39Phrase`
(src/diagnose.js lines 377-379):
`seedPhrase.every(word => this.wordList.includes(word))` — a pure word-list
membership check, with no checksum computation. -/
def isValidBIP39Phrase (wordList seedPhrase : List String) : Bool :=
  seedPhrase.all (fun word => wordList.contains word)

/-- Model of `USDTBalanceSeedPhraseRecovery.validateSeedPhrase`
(src/diagnose.js lines 218-239).  The body after the local word-list check —
wallet derivation via `ethers.Wallet.fromPhrase`, the USDT `balanceOf`
network call, and the `balanceInUSDT > 100` comparison — is the external
oracle, modelled as an injected fallible function; a thrown exception is an
`Except.error`, and the surrounding `try`/`catch` turns any error into the
return value `false`. -/
def validateSeedPhrase (wordList : List String)
    (oracle : List String → Except String Bool) (seedPhrase : List String) : Bool :=
  if isValidBIP39Phrase wordList seedPhrase then
    match oracle seedPhrase with
    | Except.ok b => b
    | Except.error _ => false
  else
    false

/-- Observable actions of one enumeration step, in program order:
`record idx` is the ledger append performed by `logAttemptedCombination`,
`validate idx` is the call to `validateSeedPhrase`, and `logValid idx` is
the match line appended by `logSeedPhraseAttempt`. -/
inductive SearchEvent
  | record (idx : Nat)
  | validate (idx : Nat)
  | logValid (idx : Nat)
deriving DecidableEq

/-- Mutable fields of `USDTBalanceSeedPhraseRecovery` used by the search
(src/diagnose.js lines 86-97).  `startTime = 0` models the JavaScript
`null`/falsy initial value; the attempted-combination set is carried as a
list whose membership is what matters. -/
structure RecoveryState where
  totalAttempts : Nat
  validAttempts : Nat
  foundValidPhrases : List String
  startTime : Nat
  combinationCount : Nat
  attemptedCombinations : List Nat
deriving DecidableEq

/-- One line of the ledger file, at the granularity at which
`loadAttemptedCombinations` reads the file back: free-form header text, the
`# ATTEMPTED_COMBINATIONS_START` marker, a numeric attempted-index line, or
a match line (which does not parse as a number). -/
inductive LogLine
  | headerLine (text : String)
  | marker
  | attemptEntry (idx : Nat)
  | matchEntry (text : String)
deriving DecidableEq

/-- Model of `USDTBalanceSeedPhraseRecovery.prepareLogFile`
(src/diagnose.js lines 307-320): `fs.writeFile` replaces the whole file with
a fresh header block ending in the marker line.  Note that the previous file
contents are not an argument: the write truncates whatever was there. -/
def prepareLogFile (now : String) (knownWords : List String)
    (missingPositions : List Nat) (combinationCount wordListSize : Nat) :
    List LogLine :=
  [LogLine.headerLine "USDT Seed Phrase Recovery Log",
   LogLine.headerLine ("Started at: " ++ now),
   LogLine.headerLine ("Known Words: " ++ String.intercalate " " knownWords),
   LogLine.headerLine
     ("Missing Positions: " ++ String.intercalate ", " (missingPositions.map toString)),
   LogLine.headerLine ("Total Possible Combinations: " ++ toString combinationCount),
   LogLine.headerLine ("Word List Size: " ++ toString wordListSize),
   LogLine.headerLine "-------------------------------------------",
   LogLine.marker]

/-- Parsing one line of the attempted-combinations section:
`BigInt(line.trim())` succeeds exactly on numeric index lines and throws on
anything else. -/
def parseIndexLine : LogLine → Option Nat
  | LogLine.attemptEntry n => some n
  | _ => none

/-- The section of the file between the first marker line and the next one
(or the end of file): `logContent.split('# ATTEMPTED_COMBINATIONS_START\n')[1]`
in src/diagnose.js line 328; `none` when no marker line is present
(the split has no second component). -/
def sectionAfterMarker (file : List LogLine) : Option (List LogLine) :=
  match file.dropWhile (fun l => decide (l ≠ LogLine.marker)) with
  | [] => none
  | _ :: rest => some (rest.takeWhile (fun l => decide (l ≠ LogLine.marker)))

/-- Model of `USDTBalanceSeedPhraseRecovery.loadAttemptedCombinations`
(src/diagnose.js lines 325-341): parse every line after the marker as a
number; a parse failure anywhere throws, is caught, and leaves the
in-memory set unchanged — modelled by `none`. -/
def loadAttemptedCombinations (file : List LogLine) : Option (List Nat) :=
  match sectionAfterMarker file with
  | none => none
  | some entries => entries.mapM parseIndexLine

/-- All numeric attempted-index lines present anywhere in a ledger file. -/
def attemptEntries (file : List LogLine) : List Nat :=
  file.filterMap parseIndexLine

/-- State change of one non-skipped iteration of the enumeration loop
(src/diagnose.js lines 263-273): `totalAttempts` is set to the successor
index, the index joins the attempted set (`logAttemptedCombination`), and on
a valid candidate `logSeedPhraseAttempt` appends the joined mnemonic and
bumps `validAttempts`. -/
def stepState (wordList knownWords : List String) (missingPositions : List Nat)
    (idx : Nat) (isValid : Bool) (st : RecoveryState) : RecoveryState :=
  let st2 := { st with
    totalAttempts := idx + 1
    attemptedCombinations := idx :: st.attemptedCombinations }
  if isValid then
    { st2 with
        foundValidPhrases := st2.foundValidPhrases ++
          [String.intercalate " "
            (generateCombination wordList knownWords missingPositions idx)]
        validAttempts := st2.validAttempts + 1 }
  else
    st2

/-- File change of one non-skipped iteration: the attempted-index line is
appended, followed by a match line when the candidate validated. -/
def stepFile (wordList knownWords : List String) (missingPositions : List Nat)
    (idx : Nat) (isValid : Bool) (file : List LogLine) : List LogLine :=
  let file1 := file ++ [LogLine.attemptEntry idx]
  if isValid then
    file1 ++ [LogLine.matchEntry
      (String.intercalate " "
        (generateCombination wordList knownWords missingPositions idx))]
  else
    file1

/-- Result of running the enumeration loop: final driver state, final
ledger file, and the emitted event trace. -/
structure LoopResult where
  state : RecoveryState
  file : List LogLine
  events : List SearchEvent
deriving DecidableEq

/-- The `for` loop of `findValidSeedPhrases` (src/diagnose.js lines
253-292), driven by fuel (the caller passes the remaining index count, and
each iteration advances the index by one).  Already-attempted indices only
advance `totalAttempts`; fresh indices are recorded first
(`logAttemptedCombination`), then validated, then logged on a match. -/
def findValidLoop (wordList knownWords : List String) (missingPositions : List Nat)
    (oracle : List String → Except String Bool) (count : Nat) :
    Nat → Nat → RecoveryState → List LogLine → LoopResult
  | 0, _, st, file => ⟨st, file, []⟩
  | fuel + 1, idx, st, file =>
    if idx < count then
      if idx ∈ st.attemptedCombinations then
        findValidLoop wordList knownWords missingPositions oracle count fuel (idx + 1)
          { st with totalAttempts := idx + 1 } file
      else
        let isValid := validateSeedPhrase wordList oracle
          (generateCombination wordList knownWords missingPositions idx)
        let r := findValidLoop wordList knownWords missingPositions oracle count fuel
          (idx + 1)
          (stepState wordList knownWords missingPositions idx isValid st)
          (stepFile wordList knownWords missingPositions idx isValid file)
        ⟨r.state, r.file,
          SearchEvent.record idx :: SearchEvent.validate idx ::
            ((if isValid then [SearchEvent.logValid idx] else []) ++ r.events)⟩
    else
      ⟨st, file, []⟩

/-- Model of `USDTBalanceSeedPhraseRecovery.findValidSeedPhrases`
(src/diagnose.js lines 244-302): throw if the word list was never loaded;
otherwise `prepareLogFile` overwrites the ledger (the previous `file`
contents are discarded), `loadAttemptedCombinations` reads the
freshly-written file back, and the loop runs from the current
`totalAttempts` up to `combinationCount - 1`. -/
def findValidSeedPhrases (wordList knownWords : List String)
    (missingPositions : List Nat) (oracle : List String → Except String Bool)
    (now : String) (file : List LogLine) (st : RecoveryState) :
    Except String LoopResult :=
  if wordList.length = 0 then
    Except.error "Word list not initialized. Call initialize() first."
  else
    let file1 := prepareLogFile now knownWords missingPositions
      st.combinationCount wordList.length
    let st1 := { st with
      attemptedCombinations :=
        (loadAttemptedCombinations file1).getD st.attemptedCombinations }
    Except.ok (findValidLoop wordList knownWords missingPositions oracle
      st.combinationCount (st.combinationCount - st.totalAttempts)
      st.totalAttempts st1 file1)

/-- On-disk checkpoint record (src/diagnose.js lines 105-111):
`totalAttempts` is serialized as decimal text (`this.totalAttempts.toString()`),
modelled by its little-endian decimal digit list; the remaining fields are
stored as plain JSON values. -/
structure CheckpointData where
  totalAttemptsText : List Nat
  validAttempts : Nat
  foundValidPhrases : List String
  startTime : Nat
  timestamp : Nat
deriving DecidableEq

/-- Model of `USDTBalanceSeedPhraseRecovery.saveCheckpoint`
(src/diagnose.js lines 103-123). -/
def saveCheckpoint (st : RecoveryState) (now : Nat) : CheckpointData :=
  { totalAttemptsText := Nat.digits 10 st.totalAttempts
    validAttempts := st.validAttempts
    foundValidPhrases := st.foundValidPhrases
    startTime := st.startTime
    timestamp := now }

/-- Model of `USDTBalanceSeedPhraseRecovery.loadCheckpoint`
(src/diagnose.js lines 128-154): `BigInt(checkpointData.totalAttempts)`
parses the decimal text back, and the listed fields overwrite the in-memory
state. -/
def loadCheckpoint (cd : CheckpointData) (st : RecoveryState) : RecoveryState :=
  { st with
      totalAttempts := Nat.ofDigits 10 cd.totalAttemptsText
      validAttempts := cd.validAttempts
      foundValidPhrases := cd.foundValidPhrases
      startTime := cd.startTime }

/-- Loading back a just-saved checkpoint restores the four saved fields
exactly; in particular the decimal round-trip of `totalAttempts` is
lossless. -/
theorem loadCheckpoint_saveCheckpoint (st : RecoveryState) (now : Nat)
    (st0 : RecoveryState) :
    loadCheckpoint (saveCheckpoint st now) st0 =
      { st0 with
          totalAttempts := st.totalAttempts
          validAttempts := st.validAttempts
          foundValidPhrases := st.foundValidPhrases
          startTime := st.startTime } := by
  simp [loadCheckpoint, saveCheckpoint, Nat.ofDigits_digits]

/-- Model of `USDTBalanceSeedPhraseRecovery.initialize`
(src/diagnose.js lines 159-197): fail on an empty word list, then fail
listing the known words that are missing from the word list, then compute
`combinationCount`, load a checkpoint when one exists, and default
`startTime` when still unset.  Line 174 computes the count through
JavaScript `Number` exponentiation before converting to BigInt; the model
uses the exact value `V ^ M` (see `doubleRepresentable` for what the
`Number` detour can actually represent). -/
def initializeDriver (wordList knownWords : List String)
    (missingPositions : List Nat) (checkpoint : Option CheckpointData)
    (now : Nat) : Except String RecoveryState :=
  if wordList.length = 0 then
    Except.error "Failed to load word list. Ensure english.txt is present."
  else
    let invalidWords := knownWords.filter (fun word => !(wordList.contains word))
    if 0 < invalidWords.length then
      Except.error ("Invalid words in known words: " ++
        String.intercalate ", " invalidWords)
    else
      let base : RecoveryState :=
        { totalAttempts := 0
          validAttempts := 0
          foundValidPhrases := []
          startTime := 0
          combinationCount := wordList.length ^ missingPositions.length
          attemptedCombinations := [] }
      let st1 := match checkpoint with
        | some cd => loadCheckpoint cd base
        | none => base
      let st2 := if st1.startTime = 0 then { st1 with startTime := now } else st1
      Except.ok st2

/-- The `main` flow (src/diagnose.js lines 383-404): initialization followed
by the search; a throw anywhere surfaces as the error and leaves the ledger
file exactly as it was. -/
def runRecovery (wordList knownWords : List String) (missingPositions : List Nat)
    (oracle : List String → Except String Bool) (checkpoint : Option CheckpointData)
    (nowMs : Nat) (nowText : String) (file : List LogLine) :
    Except String LoopResult × List LogLine :=
  match initializeDriver wordList knownWords missingPositions checkpoint nowMs with
  | Except.error e => (Except.error e, file)
  | Except.ok st =>
    match findValidSeedPhrases wordList knownWords missingPositions oracle
        nowText file st with
    | Except.error e => (Except.error e, file)
    | Except.ok r => (Except.ok r, r.file)

/-- Nonnegative integral values representable by an IEEE-754 binary64
(a JavaScript `Number`): a 53-bit mantissa times a power of two.  Relevant
because src/diagnose.js line 174 computes
`BigInt(this.wordList.length ** this.missingPositions.length)`: the
exponentiation happens on `Number`s, so whatever integer reaches the BigInt
conversion is of this form. -/
def doubleRepresentable (n : Nat) : Prop :=
  ∃ mantissa exponent : Nat, mantissa < 2 ^ 53 ∧ n = mantissa * 2 ^ exponent

/-- The search-space size demanded by the spec: exactly `V ^ M`, in
unbounded integer arithmetic. -/
def combinationCountSpec (vocabularySize freeSlotCount : Nat) : Nat :=
  vocabularySize ^ freeSlotCount

/-- C3 fails on the code: the spec demands `combinationCount = V ^ M` in
unbounded integer arithmetic, but src/diagnose.js line 174 computes
`BigInt(this.wordList.length ** this.missingPositions.length)`, running the
exponentiation on IEEE-754 doubles.  For `V = 3`, `M = 34` the exact value
`3 ^ 34 = 16677181699666569` is odd and at least `2 ^ 53`, hence not
representable as a double, so the value stored by the code cannot equal
`V ^ M` there. -/
theorem C3_combinationCount_not_double_representable :
    ¬ doubleRepresentable (combinationCountSpec 3 34) := by
  rintro ⟨mantissa, exponent, hm, he⟩
  have hodd : combinationCountSpec 3 34 % 2 = 1 := by decide
  cases exponent with
  | zero =>
    have hbig : 2 ^ 53 ≤ combinationCountSpec 3 34 := by decide
    simp [pow_zero] at he
    omega
  | succ e =>
    have h2 : combinationCountSpec 3 34 = 2 * (mantissa * 2 ^ e) := by
      rw [he, pow_succ]
      ring
    omega

/-- Unfolding the loop on an already-attempted index: only the counter
advances. -/
theorem findValidLoop_skip (wordList knownWords : List String)
    (missingPositions : List Nat) (oracle : List String → Except String Bool)
    (count fuel idx : Nat) (st : RecoveryState) (file : List LogLine)
    (hlt : idx < count) (hmem : idx ∈ st.attemptedCombinations) :
    findValidLoop wordList knownWords missingPositions oracle count (fuel + 1)
        idx st file =
      findValidLoop wordList knownWords missingPositions oracle count fuel
        (idx + 1) { st with totalAttempts := idx + 1 } file := by
  simp only [findValidLoop, if_pos hlt, if_pos hmem]

/-- Unfolding the loop on a fresh index: the step is taken and the record,
validate and optional match events are emitted in program order. -/
theorem findValidLoop_step (wordList knownWords : List String)
    (missingPositions : List Nat) (oracle : List String → Except String Bool)
    (count fuel idx : Nat) (st : RecoveryState) (file : List LogLine)
    (hlt : idx < count) (hmem : idx ∉ st.attemptedCombinations) :
    findValidLoop wordList knownWords missingPositions oracle count (fuel + 1)
        idx st file =
      let isValid := validateSeedPhrase wordList oracle
        (generateCombination wordList knownWords missingPositions idx)
      let r := findValidLoop wordList knownWords missingPositions oracle count fuel
        (idx + 1)
        (stepState wordList knownWords missingPositions idx isValid st)
        (stepFile wordList knownWords missingPositions idx isValid file)
      ⟨r.state, r.file,
        SearchEvent.record idx :: SearchEvent.validate idx ::
          ((if isValid then [SearchEvent.logValid idx] else []) ++ r.events)⟩ := by
  simp only [findValidLoop, if_pos hlt, if_neg hmem]

/-- Unfolding the loop once the index reaches the space size: nothing
happens. -/
theorem findValidLoop_stop (wordList knownWords : List String)
    (missingPositions : List Nat) (oracle : List String → Except String Bool)
    (count fuel idx : Nat) (st : RecoveryState) (file : List LogLine)
    (hge : ¬ idx < count) :
    findValidLoop wordList knownWords missingPositions oracle count (fuel + 1)
        idx st file = ⟨st, file, []⟩ := by
  simp only [findValidLoop, if_neg hge]

/-- In a trace of the shape emitted by one fresh enumeration step —
`record idx`, then `validate idx`, then a possibly-empty block without
validate events, then a tail trace in which every validation of `i` is
preceded by its record — every validation of `i` is preceded by its
record. -/
theorem validate_preceded_cons (idx i : Nat) (opt tr : List SearchEvent)
    (hopt : ∀ e ∈ opt, ∀ z, e ≠ SearchEvent.validate z)
    (htr : ∀ n : Nat, tr[n]? = some (SearchEvent.validate i) →
      ∃ m : Nat, m < n ∧ tr[m]? = some (SearchEvent.record i)) :
    ∀ n : Nat, (SearchEvent.record idx :: SearchEvent.validate idx ::
        (opt ++ tr))[n]? = some (SearchEvent.validate i) →
      ∃ m : Nat, m < n ∧ (SearchEvent.record idx :: SearchEvent.validate idx ::
        (opt ++ tr))[m]? = some (SearchEvent.record i) := by
  intro n hv
  match n with
  | 0 => simp at hv
  | 1 =>
    simp at hv
    refine ⟨0, by omega, ?_⟩
    simp [hv]
  | (k + 2) =>
    simp only [List.getElem?_cons_succ] at hv
    rcases Nat.lt_or_ge k opt.length with hk | hk
    · exfalso
      rw [List.getElem?_append_left hk] at hv
      have hmem : opt[k]? = some (SearchEvent.validate i) := hv
      have : SearchEvent.validate i ∈ opt := by
        have := List.getElem?_mem hmem
        exact this
      exact hopt _ this i rfl
    · rw [List.getElem?_append_right hk] at hv
      obtain ⟨m, hm, hrec⟩ := htr (k - opt.length) hv
      refine ⟨m + opt.length + 2, by omega, ?_⟩
      simp only [List.getElem?_cons_succ]
      rw [List.getElem?_append_right (by omega)]
      rw [show m + opt.length - opt.length = m by omega]
      exact hrec

/-- C4: temporal ordering of the ledger and the oracle inside the
enumeration loop — every `validate` event in the trace of
`findValidSeedPhrases`' loop is preceded, strictly earlier in the trace, by
the `record` event of the same index, so the driver never validates an
index that was not first recorded as attempted. -/
theorem C4_record_before_validate (wordList knownWords : List String)
    (missingPositions : List Nat) (oracle : List String → Except String Bool)
    (count fuel idx : Nat) (st : RecoveryState) (file : List LogLine) (n i : Nat)
    (hv : (findValidLoop wordList knownWords missingPositions oracle count fuel
        idx st file).events[n]? = some (SearchEvent.validate i)) :
    ∃ m, m < n ∧
      (findValidLoop wordList knownWords missingPositions oracle count fuel
        idx st file).events[m]? = some (SearchEvent.record i) := by
  induction fuel generalizing idx st file n with
  | zero => simp [findValidLoop] at hv
  | succ fuel ih =>
    by_cases hlt : idx < count
    · by_cases hmem : idx ∈ st.attemptedCombinations
      · rw [findValidLoop_skip wordList knownWords missingPositions oracle count fuel
          idx st file hlt hmem] at hv ⊢
        exact ih _ _ _ _ hv
      · rw [findValidLoop_step wordList knownWords missingPositions oracle count fuel
          idx st file hlt hmem] at hv ⊢
        simp only at hv ⊢
        refine validate_preceded_cons idx i _ _ ?_ ?_ n hv
        · intro e he z
          revert he
          split
          · intro he hz
            rw [hz] at he
            simp at he
          · intro he
            simp at he
        · intro n2 h2
          exact ih _ _ _ n2 h2
    · rw [findValidLoop_stop wordList knownWords missingPositions oracle count fuel
        idx st file hlt] at hv
      simp at hv

/-- An external oracle that fails (throws) on every candidate, as in the
spec's oracle-failure-tolerance scenario. -/
def alwaysFailingOracle : List String → Except String Bool :=
  fun _ => Except.error "network error"

/-- Witness for C4: in the concrete one-index search over the word list
`[a]` with template `[Free]`, the trace has `validate 0` at position 1, and
the theorem places `record 0` strictly before it. -/
theorem C4_record_before_validate_witness :
    ∃ m, m < 1 ∧
      (findValidLoop ["a"] [] [1] alwaysFailingOracle 1 1 0
        ⟨0, 0, [], 0, 1, []⟩ []).events[m]? = some (SearchEvent.record 0) :=
  C4_record_before_validate ["a"] [] [1] alwaysFailingOracle 1 1 0
    ⟨0, 0, [], 0, 1, []⟩ [] 1 0 (by decide)

/-- The driver state after one call to `stepState` always shows
`totalAttempts = idx + 1`, match or not. -/
theorem stepState_totalAttempts (wordList knownWords : List String)
    (missingPositions : List Nat) (idx : Nat) (isValid : Bool)
    (st : RecoveryState) :
    (stepState wordList knownWords missingPositions idx isValid st).totalAttempts =
      idx + 1 := by
  cases isValid <;> simp [stepState]

/-- A failed validation leaves `validAttempts` unchanged in `stepState`. -/
theorem stepState_validAttempts_false (wordList knownWords : List String)
    (missingPositions : List Nat) (idx : Nat) (st : RecoveryState) :
    (stepState wordList knownWords missingPositions idx false st).validAttempts =
      st.validAttempts := by
  simp [stepState]

/-- Given enough fuel, the loop drives `totalAttempts` to the end of the
search space. -/
theorem findValidLoop_totalAttempts (wordList knownWords : List String)
    (missingPositions : List Nat) (oracle : List String → Except String Bool)
    (count : Nat) :
    ∀ (fuel idx : Nat) (st : RecoveryState) (file : List LogLine),
      count ≤ idx + fuel → st.totalAttempts = idx →
      (findValidLoop wordList knownWords missingPositions oracle count fuel
        idx st file).state.totalAttempts = max idx count := by
  intro fuel
  induction fuel with
  | zero =>
    intro idx st file hfuel hst
    simp [findValidLoop]
    omega
  | succ fuel ih =>
    intro idx st file hfuel hst
    by_cases hlt : idx < count
    · by_cases hmem : idx ∈ st.attemptedCombinations
      · rw [findValidLoop_skip wordList knownWords missingPositions oracle count fuel
          idx st file hlt hmem]
        have := ih (idx + 1) { st with totalAttempts := idx + 1 } file
          (by omega) (by simp)
        rw [this]
        omega
      · rw [findValidLoop_step wordList knownWords missingPositions oracle count fuel
          idx st file hlt hmem]
        simp only
        have := ih (idx + 1)
          (stepState wordList knownWords missingPositions idx
            (validateSeedPhrase wordList oracle
              (generateCombination wordList knownWords missingPositions idx)) st)
          (stepFile wordList knownWords missingPositions idx
            (validateSeedPhrase wordList oracle
              (generateCombination wordList knownWords missingPositions idx)) file)
          (by omega)
          (stepState_totalAttempts wordList knownWords missingPositions idx _ st)
        rw [this]
        omega
    · rw [findValidLoop_stop wordList knownWords missingPositions oracle count fuel
        idx st file hlt]
      simp [hst]
      omega

/-- When every candidate fails validation, the loop never increments
`validAttempts`. -/
theorem findValidLoop_validAttempts (wordList knownWords : List String)
    (missingPositions : List Nat) (oracle : List String → Except String Bool)
    (count : Nat)
    (hfalse : ∀ phrase, validateSeedPhrase wordList oracle phrase = false) :
    ∀ (fuel idx : Nat) (st : RecoveryState) (file : List LogLine),
      (findValidLoop wordList knownWords missingPositions oracle count fuel
        idx st file).state.validAttempts = st.validAttempts := by
  intro fuel
  induction fuel with
  | zero =>
    intro idx st file
    simp [findValidLoop]
  | succ fuel ih =>
    intro idx st file
    by_cases hlt : idx < count
    · by_cases hmem : idx ∈ st.attemptedCombinations
      · rw [findValidLoop_skip wordList knownWords missingPositions oracle count fuel
          idx st file hlt hmem]
        exact ih (idx + 1) _ file
      · rw [findValidLoop_step wordList knownWords missingPositions oracle count fuel
          idx st file hlt hmem]
        simp only
        rw [hfalse (generateCombination wordList knownWords missingPositions idx)]
        rw [ih]
        exact stepState_validAttempts_false wordList knownWords missingPositions idx st
    · rw [findValidLoop_stop wordList knownWords missingPositions oracle count fuel
        idx st file hlt]

/-- C5: errors from the external oracle are swallowed — `validateSeedPhrase`
returns `false` instead of propagating a failure — and when the oracle
fails on every candidate the driver still exhausts the whole space,
finishing with `totalAttempts = combinationCount` and zero valid
phrases. -/
theorem C5_oracle_failure_tolerance (wordList knownWords : List String)
    (missingPositions : List Nat) (oracle : List String → Except String Bool)
    (now : String) (file : List LogLine) (st : RecoveryState)
    (horacle : ∀ phrase, ∃ e, oracle phrase = Except.error e)
    (hwl : wordList.length ≠ 0)
    (hstart : st.totalAttempts = 0)
    (hvalid : st.validAttempts = 0) :
    (∀ phrase, validateSeedPhrase wordList oracle phrase = false) ∧
    ∃ r : LoopResult,
      findValidSeedPhrases wordList knownWords missingPositions oracle now file st =
        Except.ok r ∧
      r.state.totalAttempts = st.combinationCount ∧
      r.state.validAttempts = 0 := by
  have hfalse : ∀ phrase, validateSeedPhrase wordList oracle phrase = false := by
    intro phrase
    obtain ⟨e, he⟩ := horacle phrase
    simp [validateSeedPhrase, he]
  refine ⟨hfalse, ?_⟩
  rw [findValidSeedPhrases, if_neg hwl]
  refine ⟨_, rfl, ?_, ?_⟩
  · rw [findValidLoop_totalAttempts wordList knownWords missingPositions oracle
      st.combinationCount _ _ _ _ (by omega) (by simpa using hstart)]
    rw [hstart]
    omega
  · rw [findValidLoop_validAttempts wordList knownWords missingPositions oracle
      st.combinationCount hfalse]
    simpa using hvalid

/-- Witness for C5: the two-index search over word list `[a, b]` with
template `[Fixed a, Free]` under the always-failing oracle completes with
two attempts and no valid phrase. -/
theorem C5_oracle_failure_tolerance_witness :
    (∀ phrase, validateSeedPhrase ["a", "b"] alwaysFailingOracle phrase = false) ∧
    ∃ r : LoopResult,
      findValidSeedPhrases ["a", "b"] ["a"] [2] alwaysFailingOracle "t" []
          ⟨0, 0, [], 7, 2, []⟩ =
        Except.ok r ∧
      r.state.totalAttempts = 2 ∧
      r.state.validAttempts = 0 :=
  C5_oracle_failure_tolerance ["a", "b"] ["a"] [2] alwaysFailingOracle "t" []
    ⟨0, 0, [], 7, 2, []⟩ (fun phrase => ⟨"network error", rfl⟩)
    (by decide) rfl rfl

/-- First run of the resumability scenario: word list `[a, b, x]`, template
`[Fixed x, Free]` (search space 3), stopped after processing the single
index 0; the run had prepared its log file and appended the attempt line
for index 0. -/
def resumeScenarioRunOne : LoopResult :=
  findValidLoop ["a", "b", "x"] ["x"] [2] alwaysFailingOracle 3 1 0
    ⟨0, 0, [], 5, 3, []⟩ (prepareLogFile "t1" ["x"] [2] 3 3)

/-- Initialization with a previously saved checkpoint restores the
checkpointed counters (the startTime fallback does not fire when a real
start time was saved) and computes the search-space size afresh. -/
theorem initializeDriver_eq_of_checkpoint (wordList knownWords : List String)
    (missingPositions : List Nat) (st : RecoveryState) (nowC now : Nat)
    (hwl : ¬ wordList.length = 0)
    (hok : knownWords.filter (fun word => !(wordList.contains word)) = [])
    (hstart : ¬ st.startTime = 0) :
    initializeDriver wordList knownWords missingPositions
        (some (saveCheckpoint st nowC)) now =
      Except.ok
        { totalAttempts := st.totalAttempts
          validAttempts := st.validAttempts
          foundValidPhrases := st.foundValidPhrases
          startTime := st.startTime
          combinationCount := wordList.length ^ missingPositions.length
          attemptedCombinations := [] } := by
  rw [initializeDriver, if_neg hwl]
  simp only [hok, loadCheckpoint_saveCheckpoint]
  rw [if_neg (by simp)]
  rw [if_neg hstart]

/-- C6 fails on the code: in the resumability scenario — run the driver,
stop after the attempts for indices `0..k-1` (here `k = 1`), save a
checkpoint, restart — the restarted driver's ledger does NOT contain
`{0} ∪ (attempts after resume)`.  `findValidSeedPhrases` calls
`prepareLogFile` (an `fs.writeFile` that truncates the log) before
`loadAttemptedCombinations` reads it, so the index-0 attempt line recorded
by the first run is erased and the resumed ledger holds only the
post-resume attempts `[1, 2]`. -/
theorem C6_resume_erases_ledger :
    attemptEntries resumeScenarioRunOne.file = [0] ∧
    ∃ st2 r,
      initializeDriver ["a", "b", "x"] ["x"] [2]
          (some (saveCheckpoint resumeScenarioRunOne.state 42)) 43 =
        Except.ok st2 ∧
      findValidSeedPhrases ["a", "b", "x"] ["x"] [2] alwaysFailingOracle "t2"
          resumeScenarioRunOne.file st2 =
        Except.ok r ∧
      attemptEntries r.file = [1, 2] ∧
      (0 : Nat) ∉ attemptEntries r.file := by
  refine ⟨by decide, ⟨1, 0, [], 5, 3, []⟩,
    ⟨⟨3, 0, [], 5, 3, [2, 1]⟩,
     prepareLogFile "t2" ["x"] [2] 3 3 ++
       [LogLine.attemptEntry 1, LogLine.attemptEntry 2],
     [SearchEvent.record 1, SearchEvent.validate 1,
      SearchEvent.record 2, SearchEvent.validate 2]⟩, ?_, ?_, ?_, ?_⟩
  · rw [show resumeScenarioRunOne.state = ⟨1, 0, [], 5, 3, [0]⟩ from by decide]
    exact initializeDriver_eq_of_checkpoint ["a", "b", "x"] ["x"] [2]
      ⟨1, 0, [], 5, 3, [0]⟩ 42 43 (by decide) (by decide) (by decide)
  · rfl
  · decide
  · decide

/-- A ledger file whose header block records search parameters different
from the current run's (different known words, missing positions,
search-space size and word-list size), followed by a stale attempted
index. -/
def mismatchedHeaderFile : List LogLine :=
  [LogLine.headerLine "USDT Seed Phrase Recovery Log",
   LogLine.headerLine "Started at: t0",
   LogLine.headerLine "Known Words: other words entirely",
   LogLine.headerLine "Missing Positions: 7",
   LogLine.headerLine "Total Possible Combinations: 999",
   LogLine.headerLine "Word List Size: 9999",
   LogLine.headerLine "-------------------------------------------",
   LogLine.marker,
   LogLine.attemptEntry 0]

/-- Counterexample to C7: on resume over a ledger whose stored header
parameters differ from the current run's (its known-words header line is
not the one the current run writes), the driver raises no
configuration-mismatch error — `findValidSeedPhrases` succeeds, enumerates
the whole space (`totalAttempts = 3`), and even re-validates the stale
index 0 instead of failing fast. -/
theorem C7_counterexample :
    LogLine.headerLine ("Known Words: " ++ String.intercalate " " ["x"]) ∉
        mismatchedHeaderFile ∧
    ∃ r,
      findValidSeedPhrases ["a", "b", "x"] ["x"] [2] alwaysFailingOracle "t2"
          mismatchedHeaderFile ⟨0, 0, [], 5, 3, []⟩ =
        Except.ok r ∧
      r.state.totalAttempts = 3 ∧
      SearchEvent.validate 0 ∈ r.events := by
  refine ⟨by decide,
    ⟨⟨3, 0, [], 5, 3, [2, 1, 0]⟩,
     prepareLogFile "t2" ["x"] [2] 3 3 ++
       [LogLine.attemptEntry 0, LogLine.attemptEntry 1, LogLine.attemptEntry 2],
     [SearchEvent.record 0, SearchEvent.validate 0,
      SearchEvent.record 1, SearchEvent.validate 1,
      SearchEvent.record 2, SearchEvent.validate 2]⟩, rfl, rfl, by decide⟩

/-- C7 amended: the driver performs no ledger-header parameter check at
all.  On resume `findValidSeedPhrases` never raises a
configuration-mismatch error (it succeeds whenever the word list is
nonempty), and its result is entirely independent of the pre-existing
ledger contents: `prepareLogFile` overwrites the file before
`loadAttemptedCombinations` reads it back, so stale attempted indices are
discarded — not reused, but also not detected. -/
theorem C7_no_header_check (wordList knownWords : List String)
    (missingPositions : List Nat) (oracle : List String → Except String Bool)
    (now : String) (file1 file2 : List LogLine) (st : RecoveryState)
    (hwl : ¬ wordList.length = 0) :
    (∃ r, findValidSeedPhrases wordList knownWords missingPositions oracle now
        file1 st = Except.ok r) ∧
    findValidSeedPhrases wordList knownWords missingPositions oracle now
        file1 st =
      findValidSeedPhrases wordList knownWords missingPositions oracle now
        file2 st := by
  constructor
  · rw [findValidSeedPhrases, if_neg hwl]
    exact ⟨_, rfl⟩
  · rfl

/-- Witness for C7's amended statement at the mismatched-header file and a
fresh file. -/
theorem C7_no_header_check_witness :
    (∃ r, findValidSeedPhrases ["a", "b", "x"] ["x"] [2] alwaysFailingOracle "t2"
        mismatchedHeaderFile ⟨0, 0, [], 5, 3, []⟩ = Except.ok r) ∧
    findValidSeedPhrases ["a", "b", "x"] ["x"] [2] alwaysFailingOracle "t2"
        mismatchedHeaderFile ⟨0, 0, [], 5, 3, []⟩ =
      findValidSeedPhrases ["a", "b", "x"] ["x"] [2] alwaysFailingOracle "t2"
        [] ⟨0, 0, [], 5, 3, []⟩ :=
  C7_no_header_check ["a", "b", "x"] ["x"] [2] alwaysFailingOracle "t2"
    mismatchedHeaderFile [] ⟨0, 0, [], 5, 3, []⟩ (by decide)

/-- C8: when some known (fixed-slot) word is missing from the vocabulary,
initialization throws the configuration error listing exactly the
offending tokens, the whole run aborts with that error before any index is
processed (no loop result exists), and the ledger file is returned
untouched — zero ledger writes. -/
theorem C8_invalid_known_words_abort (wordList knownWords : List String)
    (missingPositions : List Nat) (oracle : List String → Except String Bool)
    (checkpoint : Option CheckpointData) (nowMs : Nat) (nowText : String)
    (file : List LogLine)
    (hwl : ¬ wordList.length = 0)
    (hbad : ∃ w ∈ knownWords, w ∉ wordList) :
    runRecovery wordList knownWords missingPositions oracle checkpoint
        nowMs nowText file =
      (Except.error ("Invalid words in known words: " ++
          String.intercalate ", "
            (knownWords.filter (fun word => !(wordList.contains word)))),
       file) := by
  obtain ⟨w, hw, hnw⟩ := hbad
  have hmem : w ∈ knownWords.filter (fun word => !(wordList.contains word)) := by
    rw [List.mem_filter]
    refine ⟨hw, ?_⟩
    simp [hnw]
  have hpos : 0 < (knownWords.filter (fun word => !(wordList.contains word))).length := by
    cases hfe : knownWords.filter (fun word => !(wordList.contains word)) with
    | nil => rw [hfe] at hmem; simp at hmem
    | cons a l => simp
  rw [runRecovery, initializeDriver.eq_def, if_neg hwl]
  simp only [if_pos hpos]

/-- Witness for C8: known word `z` is not in the vocabulary `[a]`, and the
run aborts with the error listing `z`, leaving the ledger unchanged. -/
theorem C8_invalid_known_words_abort_witness :
    runRecovery ["a"] ["z"] [2] alwaysFailingOracle none 7 "t"
        [LogLine.marker] =
      (Except.error ("Invalid words in known words: " ++
          String.intercalate ", "
            ((["z"] : List String).filter
              (fun word => !((["a"] : List String).contains word)))),
       [LogLine.marker]) :=
  C8_invalid_known_words_abort ["a"] ["z"] [2] alwaysFailingOracle none 7 "t"
    [LogLine.marker] (by decide) ⟨"z", by decide, by decide⟩

/-- C9: the checkpoint round-trips without precision loss — loading the
checkpoint saved from any driver state restores `totalAttempts` (serialized
as decimal text) to the exact same integer, together with `validAttempts`,
`foundValidPhrases` and the saved search start time. -/
theorem C9_checkpoint_roundtrip (st : RecoveryState) (now : Nat)
    (st0 : RecoveryState) :
    loadCheckpoint (saveCheckpoint st now) st0 =
      { st0 with
          totalAttempts := st.totalAttempts
          validAttempts := st.validAttempts
          foundValidPhrases := st.foundValidPhrases
          startTime := st.startTime } :=
  loadCheckpoint_saveCheckpoint st now st0

/-- Every word of a candidate produced by the splice loop comes from the
word list or from the accumulator. -/
theorem mem_generateCombinationAux (wordList : List String)
    (combinationIndex m : Nat) :
    ∀ (ps : List Nat) (i : Nat) (acc : List String) (w : String),
      0 < wordList.length →
      w ∈ generateCombinationAux wordList combinationIndex m ps i acc →
      w ∈ wordList ∨ w ∈ acc := by
  intro ps
  induction ps with
  | nil =>
    intro i acc w _ hw
    right
    simpa [generateCombinationAux] using hw
  | cons p rest ih =>
    intro i acc w hV hw
    rcases ih (i + 1)
        (spliceInsert (p - 1)
          (wordList.getD (freeSlotWordIndex wordList.length m combinationIndex i) "")
          acc) w hV hw with h | h
    · left; exact h
    · rcases mem_spliceInsert _ _ _ _ h with h2 | h2
      · left
        rw [h2]
        have hlt : freeSlotWordIndex wordList.length m combinationIndex i <
            wordList.length := Nat.mod_lt _ hV
        rw [List.getD_eq_getElem _ _ hlt]
        exact List.getElem_mem _
      · right; exact h2

/-- C10: the local well-formedness check `isValidBIP39Phrase` is pure
word-list membership — it returns `true` exactly when every word of the
candidate is in the loaded word list, with no checksum computation — and
consequently every candidate generated from in-vocabulary known words at an
in-range index passes it. -/
theorem C10_isValidBIP39_membership (wordList knownWords : List String)
    (missingPositions : List Nat) (combinationIndex : Nat)
    (phrase : List String)
    (hkw : ∀ w ∈ knownWords, w ∈ wordList)
    (hidx : combinationIndex < wordList.length ^ missingPositions.length) :
    (isValidBIP39Phrase wordList phrase = true ↔ ∀ w ∈ phrase, w ∈ wordList) ∧
    isValidBIP39Phrase wordList
      (generateCombination wordList knownWords missingPositions
        combinationIndex) = true := by
  have hchar : ∀ ws : List String,
      isValidBIP39Phrase wordList ws = true ↔ ∀ w ∈ ws, w ∈ wordList := by
    intro ws
    simp [isValidBIP39Phrase]
  refine ⟨hchar phrase, ?_⟩
  rw [hchar]
  intro w hw
  cases hps : missingPositions with
  | nil =>
    rw [hps] at hw
    exact hkw w (by simpa [generateCombination, generateCombinationAux] using hw)
  | cons p rest =>
    have hV : 0 < wordList.length := by
      rcases Nat.eq_zero_or_pos wordList.length with h0 | h0
      · exfalso
        rw [h0, hps] at hidx
        rw [zero_pow (by simp : ((p :: rest).length : Nat) ≠ 0)] at hidx
        omega
      · exact h0
    rw [hps] at hw
    rcases mem_generateCombinationAux wordList combinationIndex
        (p :: rest).length (p :: rest) 0 knownWords w hV hw with h | h
    · exact h
    · exact hkw w h

/-- Witness for C10 with the example vocabulary and template at index 4:
the membership characterization and the generated candidate's validity. -/
theorem C10_isValidBIP39_membership_witness :
    (isValidBIP39Phrase ["a", "b", "c", "x", "y"] ["c", "a"] = true ↔
      ∀ w ∈ (["c", "a"] : List String),
        w ∈ (["a", "b", "c", "x", "y"] : List String)) ∧
    isValidBIP39Phrase ["a", "b", "c", "x", "y"]
      (generateCombination ["a", "b", "c", "x", "y"] ["x", "y"] [2, 4] 4) =
        true := by
  have h := C10_isValidBIP39_membership ["a", "b", "c", "x", "y"] ["x", "y"]
    [2, 4] 4 ["c", "a"] (by decide) (by decide)
  exact h
